import Mathlib

/-!
# AgeGate core: shallow embedding and verification

Shallow embedding of the age-gate decision-and-expiry engine of the
`AgeGate` cog (`src/agegate.py`): the per-guild settings record, the
fixed-window rate limiter (`_check_rate_limit`, `_increment_ban_counter`),
the staff-notification helper (`_notify_staff`), the member-join handler
(`on_member_join`) and the two background sweeps (`unban_task`,
`delayed_punishment_task`).

Modelling conventions:
* instants are `Int` epoch seconds (`discord.utils.utcnow().timestamp()`);
* the two per-guild dict tables (`temp_banned_users`, `delayed_members`)
  are association lists `List (String × Int)` with dict-style upsert/delete;
* outcomes of external platform calls (DM send, ban, unban, channel
  resolution) are supplied by explicit environment records; the handlers
  catch these errors, so the environments select which `except` branch runs;
* observable side effects (DM attempts, ban calls, staff alerts) are
  returned as explicit event lists in source order.
-/

namespace AgeGate

/-- Dict lookup on an association list (Python `d.get(k)` / `d[k]`). -/
def dictGet (d : List (String × Int)) (k : String) : Option Int :=
  match d with
  | [] => none
  | (k2, v) :: rest => if k2 = k then some v else dictGet rest k

/-- Dict upsert (Python `d[k] = v`): overwrite in place, else append. -/
def dictSet (d : List (String × Int)) (k : String) (v : Int) : List (String × Int) :=
  match d with
  | [] => [(k, v)]
  | (k2, v2) :: rest => if k2 = k then (k, v) :: rest else (k2, v2) :: dictSet rest k v

/-- Dict delete (Python `del d[k]` guarded by `if k in d`): drop the key. -/
def dictDel (d : List (String × Int)) (k : String) : List (String × Int) :=
  match d with
  | [] => []
  | (k2, v2) :: rest => if k2 = k then dictDel rest k else (k2, v2) :: dictDel rest k

/-- Per-guild settings/state record, mirroring `default_guild` in
`AgeGate.__init__` (src/agegate.py lines 353-367). -/
structure Settings where
  enabled : Bool
  min_age_seconds : Int
  ban_reason : String
  action_type : String
  ban_type : String
  temp_ban_duration_seconds : Int
  delay_punishment_seconds : Int
  staff_notification_channel_id : Option Nat
  temp_banned_users : List (String × Int)
  delayed_members : List (String × Int)
  join_rate_limit : Nat
  last_ban_timestamp : Int
  recent_bans_count : Nat
  deriving Repr, DecidableEq

/-- `AgeGate._check_rate_limit` (src/agegate.py lines 403-422): returns
whether the ban is admitted, together with the updated settings (the reset
branch writes `recent_bans_count := 0` and `last_ban_timestamp := now`). -/
def checkRateLimit (s : Settings) (now : Int) : Bool × Settings :=
  if now - s.last_ban_timestamp > 60 then
    (true, { s with recent_bans_count := 0, last_ban_timestamp := now })
  else if s.recent_bans_count ≥ s.join_rate_limit then
    (false, s)
  else
    (true, s)

/-- `AgeGate._increment_ban_counter` (src/agegate.py lines 424-429). -/
def incrementBanCounter (s : Settings) (now : Int) : Settings :=
  { s with recent_bans_count := s.recent_bans_count + 1, last_ban_timestamp := now }

/-- Outcome of a platform call that the code catches exceptions from. -/
inductive CallResult where
  | ok
  | forbidden
  | notFound
  | otherError
  deriving Repr, DecidableEq

/-- Observable external calls made by the join handler, in source order. -/
inductive Ev where
  | dm
  | ban
  | alert
  deriving Repr, DecidableEq

/-- Environment for `_notify_staff`: how the platform answers channel
resolution, the permission check, and the send. -/
structure NotifyEnv where
  channelIsText : Bool
  canSend : Bool
  sendOk : Bool
  deriving Repr, DecidableEq

/-- `AgeGate._notify_staff` (src/agegate.py lines 431-476): returns the
boolean result and the list of alert sends attempted.  Unset channel,
unresolvable channel, missing permission and a raising send all yield
`false`; only the raising send has actually issued the platform call. -/
def notifyStaff (s : Settings) (env : NotifyEnv) : Bool × List Ev :=
  match s.staff_notification_channel_id with
  | none => (false, [])
  | some _ =>
    if ¬ env.channelIsText then (false, [])
    else if ¬ env.canSend then (false, [])
    else if env.sendOk then (true, [Ev.alert])
    else (false, [Ev.alert])

/-- Environment for one `on_member_join` invocation. -/
structure JoinEnv where
  dmOk : Bool
  banRes : CallResult
  notifyEnv : NotifyEnv
  deriving Repr, DecidableEq

/-- Result of one `on_member_join` invocation: the external calls made (in
order), the result of `_notify_staff` when it was invoked, and the final
per-guild settings/state. -/
structure JoinEffects where
  events : List Ev
  notifyResult : Option Bool
  settings : Settings
  deriving Repr, DecidableEq

/-- `AgeGate.on_member_join` (src/agegate.py lines 606-690).  `now` is the
instant of the join, `createdAt` the account-creation instant, `memberId`
the stringified member id. -/
def onMemberJoin (s : Settings) (env : JoinEnv) (now createdAt : Int)
    (memberId : String) : JoinEffects :=
  if ¬ s.enabled then ⟨[], none, s⟩
  else
    let accountAge := now - createdAt
    if accountAge < s.min_age_seconds then
      let action := s.action_type.toLower
      if action = "notify" then
        let nr := notifyStaff s env.notifyEnv
        ⟨nr.2, some nr.1, s⟩
      else if action = "delay" then
        let punishmentTime := now + s.delay_punishment_seconds
        let s1 := { s with
          delayed_members := dictSet s.delayed_members memberId punishmentTime }
        let nr := notifyStaff s1 env.notifyEnv
        ⟨nr.2, some nr.1, s1⟩
      else if action = "ban" then
        match checkRateLimit s now with
        | (false, s1) => ⟨[], none, s1⟩
        | (true, s1) =>
          match env.banRes with
          | CallResult.ok =>
            let s2 := incrementBanCounter s1 now
            let s3 :=
              if s2.ban_type = "temporary" then
                { s2 with temp_banned_users := dictSet s2.temp_banned_users memberId (now + s2.temp_ban_duration_seconds) }
              else s2
            ⟨[Ev.dm, Ev.ban], none, s3⟩
          | _ => ⟨[Ev.dm, Ev.ban], none, s1⟩
      else ⟨[], none, s⟩
    else ⟨[], none, s⟩

/-- The snapshot of due keys a sweep tick computes before processing
(`if now >= timestamp` in src/agegate.py lines 492-494 and 569-571). -/
def dueKeys (d : List (String × Int)) (now : Int) : List String :=
  (d.filter (fun p => now ≥ p.2)).map Prod.fst

/-- One per-guild tick of `AgeGate.unban_task` (src/agegate.py lines
555-600): returns the table after the tick and the list of identities whose
unban was attempted.  `env` gives each unban call's outcome; every outcome
is caught and the `finally` block deletes the entry regardless, so the
result does not depend on `env`. -/
def unbanTick (table : List (String × Int)) (now : Int)
    (_env : String → CallResult) : List (String × Int) × List String :=
  let toUnban := dueKeys table now
  (toUnban.foldl (fun acc k => dictDel acc k) table, toUnban)

/-- Environment for one delayed-punishment sweep tick: per identity, whether
the member is still present, whether the DM send succeeds, and the ban
call's outcome. -/
structure SweepEnv where
  memberPresent : String → Bool
  dmOk : String → Bool
  banRes : String → CallResult

/-- Processing of one due identity inside `AgeGate.delayed_punishment_task`
(src/agegate.py lines 498-549): if the member is present, DM (failures
swallowed) then ban; on success with a temporary ban type, record the unban
instant in `temp_banned_users`; the `finally` block deletes the
`delayed_members` entry regardless.  Returns the updated settings and the
identities whose ban was attempted. -/
def delayedProcessOne (s : Settings) (env : SweepEnv) (now : Int)
    (k : String) : Settings × List String :=
  let afterAct : Settings × List String :=
    if env.memberPresent k then
      match env.banRes k with
      | CallResult.ok =>
        let s2 :=
          if s.ban_type = "temporary" then
            { s with temp_banned_users :=
                dictSet s.temp_banned_users k (now + s.temp_ban_duration_seconds) }
          else s
        (s2, [k])
      | _ => (s, [k])
    else (s, [])
  ({ afterAct.1 with delayed_members := dictDel afterAct.1.delayed_members k },
   afterAct.2)

/-- One per-guild tick of `AgeGate.delayed_punishment_task` (src/agegate.py
lines 478-549): snapshot the due identities, then process each in order. -/
def delayedTick (s : Settings) (env : SweepEnv) (now : Int) :
    Settings × List String :=
  let toPunish := dueKeys s.delayed_members now
  toPunish.foldl
    (fun acc k =>
      let r := delayedProcessOne acc.1 env now k
      (r.1, acc.2 ++ r.2))
    (s, [])

/-- One admit-then-record cycle of the rate limiter: the admission check, and
on admission the counter increment `on_member_join` performs after a
successful ban. -/
def rateStep (s : Settings) (now : Int) : Bool × Settings :=
  match checkRateLimit s now with
  | (true, s1) => (true, incrementBanCounter s1 now)
  | (false, s1) => (false, s1)

/-- Admission outcomes of a sequence of admit-then-record cycles at the
given instants. -/
def rateOutcomes (s : Settings) : List Int → List Bool
  | [] => []
  | t :: ts =>
    let r := rateStep s t
    r.1 :: rateOutcomes r.2 ts

/-! ## Helper lemmas -/

theorem dictGet_dictDel_self (d : List (String × Int)) (k : String) :
    dictGet (dictDel d k) k = none := by
  induction d with
  | nil => rfl
  | cons p rest ih =>
    obtain ⟨k2, v⟩ := p
    by_cases h : k2 = k
    · simpa [dictDel, h] using ih
    · simp [dictDel, dictGet, h, ih]

theorem dictGet_dictDel_ne (d : List (String × Int)) {k' k : String}
    (h : k' ≠ k) : dictGet (dictDel d k') k = dictGet d k := by
  induction d with
  | nil => rfl
  | cons p rest ih =>
    obtain ⟨k2, v⟩ := p
    by_cases h2 : k2 = k'
    · have hk2 : ¬ k2 = k := by rw [h2]; exact h
      simp only [dictDel, if_pos h2, dictGet, if_neg hk2]
      exact ih
    · simp only [dictDel, if_neg h2, dictGet]
      by_cases h3 : k2 = k
      · simp only [if_pos h3]
      · simp only [if_neg h3]
        exact ih

theorem mem_of_dictGet {d : List (String × Int)} {k : String} {v : Int}
    (h : dictGet d k = some v) : (k, v) ∈ d := by
  induction d with
  | nil => simp [dictGet] at h
  | cons p rest ih =>
    obtain ⟨k2, v2⟩ := p
    by_cases h2 : k2 = k
    · simp [dictGet, h2] at h
      simp [h2, h]
    · simp [dictGet, h2] at h
      exact List.mem_cons_of_mem _ (ih h)

theorem foldl_dictDel_preserve_none {ks : List String} {k : String}
    {d : List (String × Int)} (h : dictGet d k = none) :
    dictGet (ks.foldl (fun acc k2 => dictDel acc k2) d) k = none := by
  induction ks generalizing d with
  | nil => exact h
  | cons k2 rest ih =>
    simp only [List.foldl_cons]
    apply ih
    by_cases h2 : k2 = k
    · rw [h2]
      exact dictGet_dictDel_self d k
    · rw [dictGet_dictDel_ne d h2]
      exact h

theorem foldl_dictDel_mem {ks : List String} {k : String}
    (h : k ∈ ks) (d : List (String × Int)) :
    dictGet (ks.foldl (fun acc k2 => dictDel acc k2) d) k = none := by
  induction ks generalizing d with
  | nil => simp at h
  | cons k2 rest ih =>
    simp only [List.foldl_cons]
    rcases List.mem_cons.mp h with h1 | h1
    · rw [h1]
      exact foldl_dictDel_preserve_none (dictGet_dictDel_self d k2)
    · exact ih h1 _

theorem foldl_dictDel_not_mem {ks : List String} {k : String}
    (h : ∀ k' ∈ ks, k' ≠ k) (d : List (String × Int)) :
    dictGet (ks.foldl (fun acc k2 => dictDel acc k2) d) k = dictGet d k := by
  induction ks generalizing d with
  | nil => rfl
  | cons k2 rest ih =>
    simp only [List.foldl_cons]
    rw [ih (fun k' hk' => h k' (List.mem_cons_of_mem _ hk')) (dictDel d k2)]
    exact dictGet_dictDel_ne d (h k2 (List.mem_cons_self _ _))

theorem mem_dueKeys {d : List (String × Int)} {k : String} {now : Int} :
    k ∈ dueKeys d now ↔ ∃ v, (k, v) ∈ d ∧ v ≤ now := by
  simp only [dueKeys, List.mem_map, List.mem_filter]
  constructor
  · rintro ⟨⟨k2, v⟩, ⟨hm, hd⟩, rfl⟩
    exact ⟨v, hm, by simpa [ge_iff_le] using of_decide_eq_true hd⟩
  · rintro ⟨v, hm, hv⟩
    exact ⟨(k, v), ⟨hm, by simpa [ge_iff_le] using decide_eq_true hv⟩, rfl⟩

theorem char_toNat_ofNat_valid (n : Nat) (h : n.isValidChar) :
    (Char.ofNat n).toNat = n := by
  rw [Char.ofNat, dif_pos h]
  rfl

theorem char_toLower_idem (c : Char) : c.toLower.toLower = c.toLower := by
  unfold Char.toLower
  by_cases h : c.toNat ≥ 65 ∧ c.toNat ≤ 90
  · rw [if_pos h]
    have hv : (c.toNat + 32).isValidChar := Or.inl (by omega)
    have ht : (Char.ofNat (c.toNat + 32)).toNat = c.toNat + 32 :=
      char_toNat_ofNat_valid _ hv
    rw [if_neg]
    rw [ht]
    omega
  · rw [if_neg h, if_neg h]

theorem string_toLower_idem (a : String) : a.toLower.toLower = a.toLower := by
  simp only [String.toLower, String.map_eq]
  exact congrArg String.mk
    (by rw [List.map_map]
        exact List.map_congr_left (fun c _ => char_toLower_idem c))

/-- Invariant of the rate limiter over repeated admit-then-record cycles
whose instants all lie in the window `[t0, t0 + 60]`, with
`t0 ≤ last_ban_timestamp` at the start: the first `join_rate_limit -
recent_bans_count` cycles admit and every later cycle rejects. -/
theorem rateOutcomes_spec (t0 : Int) :
    ∀ (ts : List Int) (s : Settings), t0 ≤ s.last_ban_timestamp →
    (∀ t ∈ ts, t0 ≤ t ∧ t ≤ t0 + 60) →
    rateOutcomes s ts =
      List.replicate (min ts.length (s.join_rate_limit - s.recent_bans_count)) true
        ++ List.replicate (ts.length - (s.join_rate_limit - s.recent_bans_count)) false := by
  intro ts
  induction ts with
  | nil => intro s _ _; simp [rateOutcomes]
  | cons t rest ih =>
    intro s hlast hts
    obtain ⟨ht0, ht60⟩ := hts t (List.mem_cons_self _ _)
    have hrest : ∀ t' ∈ rest, t0 ≤ t' ∧ t' ≤ t0 + 60 :=
      fun t' ht' => hts t' (List.mem_cons_of_mem _ ht')
    have hnoreset : ¬ (t - s.last_ban_timestamp > 60) := by omega
    by_cases hc : s.recent_bans_count ≥ s.join_rate_limit
    · have hstep : rateStep s t = (false, s) := by
        simp [rateStep, checkRateLimit, hnoreset, hc]
      simp only [rateOutcomes, hstep]
      rw [ih s hlast hrest]
      have h0 : s.join_rate_limit - s.recent_bans_count = 0 := by omega
      simp [h0, List.replicate_succ]
    · have hstep : rateStep s t =
          (true, incrementBanCounter s t) := by
        simp [rateStep, checkRateLimit, hnoreset, hc]
      simp only [rateOutcomes, hstep]
      rw [ih (incrementBanCounter s t) (by simp [incrementBanCounter]; omega)
            hrest]
      simp only [incrementBanCounter]
      have hm : min (rest.length + 1) (s.join_rate_limit - s.recent_bans_count)
          = min rest.length (s.join_rate_limit - (s.recent_bans_count + 1)) + 1 := by
        omega
      have hn : (rest.length + 1) - (s.join_rate_limit - s.recent_bans_count)
          = rest.length - (s.join_rate_limit - (s.recent_bans_count + 1)) := by
        omega
      simp only [List.length_cons, hm, hn, List.replicate_succ, List.cons_append]

theorem delayedProcessOne_delayed (s : Settings) (env : SweepEnv) (now : Int)
    (k : String) :
    (delayedProcessOne s env now k).1.delayed_members = dictDel s.delayed_members k := by
  unfold delayedProcessOne
  by_cases hp : env.memberPresent k
  · simp only [if_pos hp]
    cases env.banRes k
    all_goals simp
    all_goals (split <;> simp)
  · simp [if_neg hp]

theorem delayedProcessOne_snd (s : Settings) (env : SweepEnv) (now : Int)
    (k : String) :
    (delayedProcessOne s env now k).2 = if env.memberPresent k then [k] else [] := by
  unfold delayedProcessOne
  by_cases hp : env.memberPresent k
  · simp only [if_pos hp]
    cases env.banRes k <;> simp
  · simp [if_neg hp]

theorem delayedFold_delayed (env : SweepEnv) (now : Int) :
    ∀ (ks : List String) (s : Settings) (acc : List String),
    ((ks.foldl
        (fun acc2 k =>
          let r := delayedProcessOne acc2.1 env now k
          (r.1, acc2.2 ++ r.2))
        (s, acc)).1).delayed_members =
      ks.foldl (fun d k => dictDel d k) s.delayed_members := by
  intro ks
  induction ks with
  | nil => intro s acc; rfl
  | cons k rest ih =>
    intro s acc
    simp only [List.foldl_cons]
    rw [ih]
    have := delayedProcessOne_delayed s env now k
    exact congrArg (fun d => rest.foldl (fun d2 k2 => dictDel d2 k2) d) this

theorem delayedFold_snd (env : SweepEnv) (now : Int) :
    ∀ (ks : List String) (s : Settings) (acc : List String),
    ((ks.foldl
        (fun acc2 k =>
          let r := delayedProcessOne acc2.1 env now k
          (r.1, acc2.2 ++ r.2))
        (s, acc)).2) = acc ++ ks.filter env.memberPresent := by
  intro ks
  induction ks with
  | nil => intro s acc; simp
  | cons k rest ih =>
    intro s acc
    simp only [List.foldl_cons]
    rw [ih]
    rw [delayedProcessOne_snd]
    by_cases hp : env.memberPresent k <;> simp [hp]

theorem dictGet_dictSet_self (d : List (String × Int)) (k : String) (v : Int) :
    dictGet (dictSet d k v) k = some v := by
  induction d with
  | nil => simp [dictSet, dictGet]
  | cons p rest ih =>
    obtain ⟨k2, v2⟩ := p
    by_cases h2 : k2 = k
    · simp [dictSet, if_pos h2, dictGet]
    · simp only [dictSet, if_neg h2, dictGet, ih]

theorem keys_nodup_val_eq {d : List (String × Int)}
    (hnd : (d.map Prod.fst).Nodup) {k : String} {v t : Int}
    (h1 : (k, v) ∈ d) (h2 : (k, t) ∈ d) : v = t := by
  induction d with
  | nil => simp at h1
  | cons p rest ih =>
    simp only [List.map_cons, List.nodup_cons] at hnd
    rcases List.mem_cons.mp h1 with e1 | e1 <;>
      rcases List.mem_cons.mp h2 with e2 | e2
    · exact congrArg Prod.snd (e1.trans e2.symm)
    · exact absurd (List.mem_map.mpr ⟨(k, t), e2, by rw [← e1]⟩) hnd.1
    · exact absurd (List.mem_map.mpr ⟨(k, v), e1, by rw [← e2]⟩) hnd.1
    · exact ih hnd.2 e1 e2

theorem mem_dueKeys_iff_of_nodup {d : List (String × Int)} {k : String}
    {t now : Int} (hnd : (d.map Prod.fst).Nodup)
    (hget : dictGet d k = some t) :
    k ∈ dueKeys d now ↔ t ≤ now := by
  constructor
  · intro hk
    obtain ⟨v, hv, hvle⟩ := mem_dueKeys.mp hk
    exact keys_nodup_val_eq hnd hv (mem_of_dictGet hget) ▸ hvle
  · intro h
    exact mem_dueKeys.mpr ⟨t, mem_of_dictGet hget, h⟩

/-! ## Claim theorems -/

/-- C4: for every identity whose age (`now - createdAt`) is at least
`min_age_seconds`, `on_member_join` takes no action (no external call, no
notification, state unchanged) regardless of `action_type`; and whenever
`enabled = false` it takes no action regardless of age and `action_type`. -/
theorem C4_no_action_when_old_or_disabled :
    (∀ (s : Settings) (env : JoinEnv) (now createdAt : Int) (mid : String),
        s.min_age_seconds ≤ now - createdAt →
        onMemberJoin s env now createdAt mid = ⟨[], none, s⟩)
    ∧ (∀ (s : Settings) (env : JoinEnv) (now createdAt : Int) (mid : String),
        s.enabled = false →
        onMemberJoin s env now createdAt mid = ⟨[], none, s⟩) := by
  constructor
  · intro s env now createdAt mid h
    have hage : ¬ (now - createdAt < s.min_age_seconds) := by omega
    by_cases he : s.enabled
    · simp [onMemberJoin, he, hage]
    · simp [onMemberJoin, he]
  · intro s env now createdAt mid h
    simp [onMemberJoin, h]

/-- Witness for C4 at a concrete old account and a concrete disabled guild. -/
theorem C4_witness :
    (let s : Settings := ⟨true, 604800, "r", "ban", "permanent", 604800, 86400,
        none, [], [], 5, 0, 0⟩
     onMemberJoin s ⟨true, CallResult.ok, ⟨true, true, true⟩⟩ 1000000 0 "42"
        = ⟨[], none, s⟩)
    ∧ (let s : Settings := ⟨false, 604800, "r", "ban", "permanent", 604800, 86400,
        none, [], [], 5, 0, 0⟩
       onMemberJoin s ⟨true, CallResult.ok, ⟨true, true, true⟩⟩ 1000 999 "42"
        = ⟨[], none, s⟩) :=
  ⟨C4_no_action_when_old_or_disabled.1 _ _ _ _ _ (by decide),
   C4_no_action_when_old_or_disabled.2 _ _ _ _ _ (by decide)⟩

/-- C7: for a too-new identity with action type `"ban"` (after lowercasing),
when the rate limiter rejects (the window has not elapsed and the counter has
reached `join_rate_limit`), `on_member_join` makes no external call (no
removal, no DM, no staff notification) and leaves the whole per-guild state,
including both ledger tables, unchanged. -/
theorem C7_rate_limited_drop_unchanged
    (s : Settings) (env : JoinEnv) (now createdAt : Int) (mid : String)
    (henabled : s.enabled = true)
    (hyoung : now - createdAt < s.min_age_seconds)
    (haction : s.action_type.toLower = "ban")
    (hwindow : now - s.last_ban_timestamp ≤ 60)
    (hcount : s.recent_bans_count ≥ s.join_rate_limit) :
    onMemberJoin s env now createdAt mid = ⟨[], none, s⟩ := by
  have hnoreset : ¬ (now - s.last_ban_timestamp > 60) := by omega
  have hcrl : checkRateLimit s now = (false, s) := by
    simp [checkRateLimit, hnoreset, hcount]
  simp [onMemberJoin, henabled, hyoung, haction, hcrl]

/-- Witness for C7: an exhausted counter within the window drops the join. -/
theorem C7_witness :
    onMemberJoin ⟨true, 604800, "r", "ban", "permanent", 604800, 86400,
        none, [("X", 7)], [("Y", 9)], 5, 100, 5⟩
      ⟨true, CallResult.ok, ⟨true, true, true⟩⟩ 130 0 "42"
      = ⟨[], none, ⟨true, 604800, "r", "ban", "permanent", 604800, 86400,
          none, [("X", 7)], [("Y", 9)], 5, 100, 5⟩⟩ :=
  C7_rate_limited_drop_unchanged _ _ _ _ _ (by decide) (by decide)
    (by rw [String.toLower, String.map_eq]; decide) (by decide) (by decide)

/-- C8: for a too-new identity with action type `"notify"` and no configured
staff channel, `on_member_join` takes the notify branch (`_notify_staff` is
invoked and returns `false` instead of raising), sends no alert, makes no
other external call, and leaves the state unchanged. -/
theorem C8_notify_without_channel_noop
    (s : Settings) (env : JoinEnv) (now createdAt : Int) (mid : String)
    (henabled : s.enabled = true)
    (hyoung : now - createdAt < s.min_age_seconds)
    (haction : s.action_type.toLower = "notify")
    (hchan : s.staff_notification_channel_id = none) :
    onMemberJoin s env now createdAt mid = ⟨[], some false, s⟩ := by
  have hns : notifyStaff s env.notifyEnv = (false, []) := by
    simp [notifyStaff, hchan]
  simp [onMemberJoin, henabled, hyoung, haction, hns]

/-- Witness for C8 at a concrete guild with `action_type = "notify"`. -/
theorem C8_witness :
    onMemberJoin ⟨true, 604800, "r", "notify", "permanent", 604800, 86400,
        none, [], [], 5, 0, 0⟩
      ⟨true, CallResult.ok, ⟨true, true, true⟩⟩ 1000 999 "42"
      = ⟨[], some false, ⟨true, 604800, "r", "notify", "permanent", 604800,
          86400, none, [], [], 5, 0, 0⟩⟩ :=
  C8_notify_without_channel_noop _ _ _ _ _ (by decide) (by decide)
    (by rw [String.toLower, String.map_eq]; decide) (by decide)

/-- C9 (implicit): for a too-new identity in an enabled guild, a stored
`action_type` whose lowercasing is none of `"ban"`, `"delay"`, `"notify"`
falls through every dispatch branch: no external call, no notification, no
ledger write, no rate-limiter change. -/
theorem C9_unknown_action_noop
    (s : Settings) (env : JoinEnv) (now createdAt : Int) (mid : String)
    (henabled : s.enabled = true)
    (hyoung : now - createdAt < s.min_age_seconds)
    (hn : s.action_type.toLower ≠ "notify")
    (hd : s.action_type.toLower ≠ "delay")
    (hb : s.action_type.toLower ≠ "ban") :
    onMemberJoin s env now createdAt mid = ⟨[], none, s⟩ := by
  simp [onMemberJoin, henabled, hyoung, hn, hd, hb]

/-- Witness for C9 with the unknown stored action `"Kick"`. -/
theorem C9_witness :
    onMemberJoin ⟨true, 604800, "r", "Kick", "permanent", 604800, 86400,
        some 7, [], [], 5, 0, 0⟩
      ⟨true, CallResult.ok, ⟨true, true, true⟩⟩ 1000 999 "42"
      = ⟨[], none, ⟨true, 604800, "r", "Kick", "permanent", 604800, 86400,
          some 7, [], [], 5, 0, 0⟩⟩ :=
  C9_unknown_action_noop _ _ _ _ _ (by decide) (by decide)
    (by rw [String.toLower, String.map_eq]; decide)
    (by rw [String.toLower, String.map_eq]; decide)
    (by rw [String.toLower, String.map_eq]; decide)

/-- C3: every identity a sweep tick selects as due is absent from the
corresponding ledger table after the tick — `temp_banned_users` for the
un-ban sweep and `delayed_members` for the delayed-punishment sweep —
whatever outcome (success, permission error, not-found, other exception)
each unban/ban attempt has. -/
theorem C3_sweep_clear_invariant :
    (∀ (table : List (String × Int)) (now : Int) (env : String → CallResult)
        (k : String), k ∈ dueKeys table now →
        dictGet (unbanTick table now env).1 k = none)
    ∧ (∀ (s : Settings) (env : SweepEnv) (now : Int) (k : String),
        k ∈ dueKeys s.delayed_members now →
        dictGet (delayedTick s env now).1.delayed_members k = none) := by
  constructor
  · intro table now env k hk
    exact foldl_dictDel_mem hk table
  · intro s env now k hk
    unfold delayedTick
    rw [delayedFold_delayed]
    exact foldl_dictDel_mem hk _

/-- Witness for C3: a due entry is cleared by each sweep even when the
platform call fails. -/
theorem C3_witness :
    dictGet (unbanTick [("A", 50), ("B", 200)] 100
        (fun _ => CallResult.forbidden)).1 "A" = none
    ∧ dictGet (delayedTick
        ⟨true, 604800, "r", "ban", "temporary", 604800, 86400, none, [],
          [("A", 50), ("B", 200)], 5, 0, 0⟩
        ⟨fun _ => true, fun _ => false, fun _ => CallResult.otherError⟩
        100).1.delayed_members "A" = none :=
  ⟨C3_sweep_clear_invariant.1 _ _ _ _ (by decide),
   C3_sweep_clear_invariant.2 _ _ _ _ (by decide)⟩

/-- C5: one un-ban sweep tick attempts to restore and clears exactly the
identities whose stored instant is ≤ `now`; an entry whose instant is after
`now` keeps its binding and is not attempted.  (Keys are unique, as in a
Python dict.) -/
theorem C5_unban_sweep_due_only
    (table : List (String × Int)) (now : Int) (env : String → CallResult)
    (k : String) (t : Int)
    (hnd : (table.map Prod.fst).Nodup)
    (hget : dictGet table k = some t) :
    (t ≤ now →
        dictGet (unbanTick table now env).1 k = none
        ∧ k ∈ (unbanTick table now env).2)
    ∧ (now < t →
        dictGet (unbanTick table now env).1 k = some t
        ∧ k ∉ (unbanTick table now env).2) := by
  constructor
  · intro hle
    have hk : k ∈ dueKeys table now :=
      (mem_dueKeys_iff_of_nodup hnd hget).mpr hle
    exact ⟨foldl_dictDel_mem hk table, hk⟩
  · intro hlt
    have hk : k ∉ dueKeys table now := fun hmem =>
      absurd ((mem_dueKeys_iff_of_nodup hnd hget).mp hmem) (by omega)
    refine ⟨?_, hk⟩
    rw [show (unbanTick table now env).1
        = (dueKeys table now).foldl (fun acc k2 => dictDel acc k2) table from rfl]
    rw [foldl_dictDel_not_mem (fun k2 hk2 he => hk (by rwa [he] at hk2)) table]
    exact hget

/-- Witness for C5 on the spec scenario `{A: now-1s, B: now+1000s}` with
`now = 100`: A is cleared and attempted, B is kept and not attempted. -/
theorem C5_witness :
    (dictGet (unbanTick [("A", 99), ("B", 1100)] 100
        (fun _ => CallResult.ok)).1 "A" = none
      ∧ "A" ∈ (unbanTick [("A", 99), ("B", 1100)] 100
        (fun _ => CallResult.ok)).2)
    ∧ (dictGet (unbanTick [("A", 99), ("B", 1100)] 100
        (fun _ => CallResult.ok)).1 "B" = some 1100
      ∧ "B" ∉ (unbanTick [("A", 99), ("B", 1100)] 100
        (fun _ => CallResult.ok)).2) :=
  ⟨(C5_unban_sweep_due_only _ 100 _ "A" 99 (by decide) (by decide)).1 (by decide),
   (C5_unban_sweep_due_only _ 100 _ "B" 1100 (by decide) (by decide)).2 (by decide)⟩

/-- Fields of the settings record that `_check_rate_limit` never writes. -/
theorem checkRateLimit_preserves (s : Settings) (now : Int) :
    (checkRateLimit s now).2.ban_type = s.ban_type
    ∧ (checkRateLimit s now).2.temp_ban_duration_seconds
        = s.temp_ban_duration_seconds
    ∧ (checkRateLimit s now).2.temp_banned_users = s.temp_banned_users
    ∧ (checkRateLimit s now).2.delayed_members = s.delayed_members := by
  unfold checkRateLimit
  split
  · simp
  · split <;> simp

/-- The staff-notification helper only ever issues alert sends. -/
theorem notifyStaff_events (s : Settings) (env : NotifyEnv) :
    (notifyStaff s env).2 = [] ∨ (notifyStaff s env).2 = [Ev.alert] := by
  unfold notifyStaff
  rcases s.staff_notification_channel_id with _ | c
  · exact Or.inl rfl
  · by_cases h1 : env.channelIsText
    · by_cases h2 : env.canSend
      · by_cases h3 : env.sendOk
        · simp [h1, h2, h3]
        · simp [h1, h2, h3]
      · simp [h1, h2]
    · simp [h1]

theorem notifyStaff_no_dm_ban (s : Settings) (env : NotifyEnv) :
    Ev.ban ∉ (notifyStaff s env).2 ∧ Ev.dm ∉ (notifyStaff s env).2 := by
  rcases notifyStaff_events s env with h | h <;> rw [h] <;>
    exact ⟨by simp, by simp⟩

/-- C6: for a too-new identity in an enabled guild with action type
`"delay"`, the join handler inserts the identity into `delayed_members`
mapped to exactly `now + delay_punishment_seconds`, performs no removal and
no DM at that time, writes nothing to `temp_banned_users`, and invokes the
best-effort staff notification helper; and once the stored instant has
passed, a delayed-punishment sweep tick (with the member still present)
attempts the removal and leaves the identity absent from
`delayed_members`. -/
theorem C6_delay_schedule_and_sweep :
    (∀ (s : Settings) (env : JoinEnv) (now createdAt : Int) (mid : String),
        s.enabled = true →
        now - createdAt < s.min_age_seconds →
        s.action_type.toLower = "delay" →
        dictGet (onMemberJoin s env now createdAt mid).settings.delayed_members mid
            = some (now + s.delay_punishment_seconds)
        ∧ Ev.ban ∉ (onMemberJoin s env now createdAt mid).events
        ∧ Ev.dm ∉ (onMemberJoin s env now createdAt mid).events
        ∧ (onMemberJoin s env now createdAt mid).settings.temp_banned_users
            = s.temp_banned_users
        ∧ ((onMemberJoin s env now createdAt mid).notifyResult).isSome = true)
    ∧ (∀ (s2 : Settings) (senv : SweepEnv) (now2 : Int) (mid : String) (due : Int),
        dictGet s2.delayed_members mid = some due →
        due ≤ now2 →
        senv.memberPresent mid = true →
        mid ∈ (delayedTick s2 senv now2).2
        ∧ dictGet (delayedTick s2 senv now2).1.delayed_members mid = none) := by
  constructor
  · intro s env now createdAt mid henabled hyoung haction
    have h1 : ¬(("delay" : String) = "notify") := by decide
    refine ⟨?_, ?_, ?_, ?_, ?_⟩ <;>
      simp only [onMemberJoin, henabled, hyoung, haction, h1, Bool.not_true,
        not_false_eq_true, if_false, if_true, ite_true, ite_false, if_pos, reduceIte]
    · exact dictGet_dictSet_self _ _ _
    · exact (notifyStaff_no_dm_ban _ _).1
    · exact (notifyStaff_no_dm_ban _ _).2
    · rfl
    · rfl
  · intro s2 senv now2 mid due hget hdue hpres
    have hmem : mid ∈ dueKeys s2.delayed_members now2 :=
      mem_dueKeys.mpr ⟨due, mem_of_dictGet hget, hdue⟩
    constructor
    · rw [show (delayedTick s2 senv now2).2
          = (dueKeys s2.delayed_members now2).filter senv.memberPresent from by
        unfold delayedTick
        rw [delayedFold_snd]
        simp]
      exact List.mem_filter.mpr ⟨hmem, hpres⟩
    · unfold delayedTick
      rw [delayedFold_delayed]
      exact foldl_dictDel_mem hmem _

/-- Witness for C6: scheduling at `now = 1000` with a 24h delay, then a
sweep at `now = 100000`. -/
theorem C6_witness :
    (dictGet (onMemberJoin
        ⟨true, 604800, "r", "delay", "permanent", 604800, 86400, some 7, [],
          [], 5, 0, 0⟩
        ⟨true, CallResult.ok, ⟨true, true, true⟩⟩ 1000 999
        "42").settings.delayed_members "42" = some 87400)
    ∧ ("42" ∈ (delayedTick
          ⟨true, 604800, "r", "delay", "permanent", 604800, 86400, some 7, [],
            [("42", 87400)], 5, 0, 0⟩
          ⟨fun _ => true, fun _ => true, fun _ => CallResult.ok⟩ 100000).2
        ∧ dictGet (delayedTick
          ⟨true, 604800, "r", "delay", "permanent", 604800, 86400, some 7, [],
            [("42", 87400)], 5, 0, 0⟩
          ⟨fun _ => true, fun _ => true, fun _ => CallResult.ok⟩
          100000).1.delayed_members "42" = none) :=
  ⟨(C6_delay_schedule_and_sweep.1 _ _ _ _ _ (by decide) (by decide)
      (by rw [String.toLower, String.map_eq]; decide)).1,
   C6_delay_schedule_and_sweep.2 _ _ _ _ 87400 (by decide) (by decide)
      (by decide)⟩

/-- C2: on an admitted immediate ban, the DM is attempted before the ban
call and its failure never prevents the ban (both calls are made for every
DM outcome, in that order); if the ban call succeeds the rate-limiter
counter is incremented and, when `ban_type = "temporary"`, the identity is
mapped to `now + temp_ban_duration_seconds` in `temp_banned_users`; if the
ban call raises (`Forbidden` or any other error) the final state is exactly
the post-admission-check state: no counter increment and no
`temp_banned_users` write. -/
theorem C2_ban_now_postconditions
    (s : Settings) (env : JoinEnv) (now createdAt : Int) (mid : String)
    (henabled : s.enabled = true)
    (hyoung : now - createdAt < s.min_age_seconds)
    (haction : s.action_type.toLower = "ban")
    (hadm : (checkRateLimit s now).1 = true) :
    (onMemberJoin s env now createdAt mid).events = [Ev.dm, Ev.ban]
    ∧ (env.banRes = CallResult.ok →
        (onMemberJoin s env now createdAt mid).settings.recent_bans_count
            = (checkRateLimit s now).2.recent_bans_count + 1
        ∧ (s.ban_type = "temporary" →
            dictGet (onMemberJoin s env now createdAt mid).settings.temp_banned_users mid
              = some (now + s.temp_ban_duration_seconds))
        ∧ (s.ban_type ≠ "temporary" →
            (onMemberJoin s env now createdAt mid).settings.temp_banned_users
              = s.temp_banned_users))
    ∧ (env.banRes ≠ CallResult.ok →
        (onMemberJoin s env now createdAt mid).settings = (checkRateLimit s now).2
        ∧ (checkRateLimit s now).2.temp_banned_users = s.temp_banned_users) := by
  have hb : ¬(("ban" : String) = "notify") := by decide
  have hd : ¬(("ban" : String) = "delay") := by decide
  have hpres := checkRateLimit_preserves s now
  rcases hcr : checkRateLimit s now with ⟨b, s1⟩
  rw [hcr] at hadm
  subst hadm
  rw [hcr] at hpres
  obtain ⟨hbt0, hdur0, htb0, _⟩ := hpres
  replace hbt0 : s1.ban_type = s.ban_type := hbt0
  replace hdur0 : s1.temp_ban_duration_seconds = s.temp_ban_duration_seconds := hdur0
  replace htb0 : s1.temp_banned_users = s.temp_banned_users := htb0
  cases hbr : env.banRes
  case ok =>
    have hrun : onMemberJoin s env now createdAt mid =
        ⟨[Ev.dm, Ev.ban], none,
          if (incrementBanCounter s1 now).ban_type = "temporary" then
            { incrementBanCounter s1 now with temp_banned_users := dictSet (incrementBanCounter s1 now).temp_banned_users mid (now + (incrementBanCounter s1 now).temp_ban_duration_seconds) }
          else incrementBanCounter s1 now⟩ := by
      simp only [onMemberJoin, henabled, hyoung, haction, hb, hd, hcr, hbr]
      simp
    refine ⟨by rw [hrun], fun _ => ⟨?_, ?_, ?_⟩, fun hne => absurd rfl hne⟩
    · rw [hrun]
      show (if (incrementBanCounter s1 now).ban_type = "temporary" then _ else
        incrementBanCounter s1 now).recent_bans_count = s1.recent_bans_count + 1
      split
      · rfl
      · rfl
    · intro htemp
      rw [hrun]
      have hcond : (incrementBanCounter s1 now).ban_type = "temporary" := by
        rw [show (incrementBanCounter s1 now).ban_type = s1.ban_type from rfl,
          hbt0]
        exact htemp
      show dictGet (if (incrementBanCounter s1 now).ban_type = "temporary" then _
          else incrementBanCounter s1 now).temp_banned_users mid = _
      rw [if_pos hcond]
      show dictGet (dictSet (incrementBanCounter s1 now).temp_banned_users mid
          (now + (incrementBanCounter s1 now).temp_ban_duration_seconds)) mid = _
      rw [show (now + (incrementBanCounter s1 now).temp_ban_duration_seconds)
          = now + s.temp_ban_duration_seconds by
        rw [show (incrementBanCounter s1 now).temp_ban_duration_seconds
            = s1.temp_ban_duration_seconds from rfl, hdur0]]
      exact dictGet_dictSet_self _ _ _
    · intro htemp
      rw [hrun]
      have hcond : ¬ (incrementBanCounter s1 now).ban_type = "temporary" := by
        rw [show (incrementBanCounter s1 now).ban_type = s1.ban_type from rfl,
          hbt0]
        exact htemp
      show (if (incrementBanCounter s1 now).ban_type = "temporary" then _ else
        incrementBanCounter s1 now).temp_banned_users = s.temp_banned_users
      rw [if_neg hcond]
      exact htb0
  all_goals {
    have hrun : onMemberJoin s env now createdAt mid =
        ⟨[Ev.dm, Ev.ban], none, s1⟩ := by
      simp only [onMemberJoin, henabled, hyoung, haction, hb, hd, hcr, hbr]
      simp
    refine ⟨by rw [hrun], fun hok => absurd hok (by simp [hbr]), fun _ =>
      ⟨by rw [hrun], htb0⟩⟩ }

/-- Witness for C2: a temporary immediate ban that succeeds, and a
permanent immediate ban whose ban call raises `Forbidden`. -/
theorem C2_witness :
    ((onMemberJoin ⟨true, 604800, "r", "ban", "temporary", 259200, 86400,
        none, [], [], 5, 0, 0⟩
        ⟨false, CallResult.ok, ⟨true, true, true⟩⟩ 1000 999 "42").events
      = [Ev.dm, Ev.ban]
      ∧ dictGet (onMemberJoin ⟨true, 604800, "r", "ban", "temporary", 259200,
          86400, none, [], [], 5, 0, 0⟩
          ⟨false, CallResult.ok, ⟨true, true, true⟩⟩ 1000 999
          "42").settings.temp_banned_users "42" = some 260200)
    ∧ (onMemberJoin ⟨true, 604800, "r", "ban", "permanent", 259200, 86400,
        none, [], [], 5, 100, 2⟩
        ⟨true, CallResult.forbidden, ⟨true, true, true⟩⟩ 130 0 "42").settings
      = ⟨true, 604800, "r", "ban", "permanent", 259200, 86400, none, [], [], 5, 100, 2⟩ := by
  have h1 := C2_ban_now_postconditions
    ⟨true, 604800, "r", "ban", "temporary", 259200, 86400, none, [], [], 5, 0, 0⟩
    ⟨false, CallResult.ok, ⟨true, true, true⟩⟩ 1000 999 "42"
    (by decide) (by decide) (by rw [String.toLower, String.map_eq]; decide)
    (by decide)
  have h2 := C2_ban_now_postconditions
    ⟨true, 604800, "r", "ban", "permanent", 259200, 86400, none, [], [], 5, 100, 2⟩
    ⟨true, CallResult.forbidden, ⟨true, true, true⟩⟩ 130 0 "42"
    (by decide) (by decide) (by rw [String.toLower, String.map_eq]; decide)
    (by decide)
  refine ⟨⟨h1.1, ?_⟩, ?_⟩
  · exact (h1.2.1 rfl).2.1 rfl
  · rw [(h2.2.2 (by decide)).1]
    decide

/-- C1 counterexample: the claim says an admission attempt made at least 60
seconds after the last reset instant resets the counter and admits, but the
code's reset test is strictly greater than 60 seconds
(`now - last_ban_timestamp > 60`).  With `join_rate_limit = 1`,
`last_ban_timestamp = 0` and `recent_bans_count = 1`, an attempt at
`now = 60` — exactly 60 seconds after the last reset instant — is rejected
and nothing is reset. -/
theorem C1_counterexample :
    rateOutcomes ⟨true, 604800, "r", "ban", "permanent", 604800, 86400,
        none, [], [], 1, 0, 0⟩ [0, 60] = [true, false]
    ∧ (60 : Int) - (0 : Int) ≥ 60
    ∧ checkRateLimit ⟨true, 604800, "r", "ban", "permanent", 604800, 86400,
        none, [], [], 1, 0, 1⟩ 60
      = (false, ⟨true, 604800, "r", "ban", "permanent", 604800, 86400,
          none, [], [], 1, 0, 1⟩) := by
  decide

/-- C1 (amended): starting from a reset instant (counter zero,
`last_ban_timestamp = t0`), over any sequence of admit-then-record ban
cycles whose instants lie within the 60-second window `[t0, t0 + 60]`,
exactly `join_rate_limit` admissions are granted and every further attempt
in that window is rejected (the window is tracked through
`last_ban_timestamp`, which each successful ban moves forward); and any
admission attempt made strictly more than 60 seconds after
`last_ban_timestamp` resets the counter to zero and admits. -/
theorem C1_rate_limiter_window :
    (∀ (s : Settings) (ts : List Int),
        s.recent_bans_count = 0 →
        (∀ t ∈ ts, s.last_ban_timestamp ≤ t ∧ t ≤ s.last_ban_timestamp + 60) →
        rateOutcomes s ts
          = List.replicate (min ts.length s.join_rate_limit) true
            ++ List.replicate (ts.length - s.join_rate_limit) false)
    ∧ (∀ (s : Settings) (now : Int),
        now - s.last_ban_timestamp > 60 →
        checkRateLimit s now
          = (true, { s with recent_bans_count := 0, last_ban_timestamp := now })) := by
  constructor
  · intro s ts hcount hts
    have h := rateOutcomes_spec s.last_ban_timestamp ts s le_rfl hts
    rw [hcount] at h
    simpa using h
  · intro s now h
    simp [checkRateLimit, h]

/-- Witness for C1: limit 2, reset instant 100; four attempts inside the
window give exactly two admissions then rejections, and an attempt at 161
(61 seconds later) resets and admits. -/
theorem C1_witness :
    (rateOutcomes ⟨true, 604800, "r", "ban", "permanent", 604800, 86400,
        none, [], [], 2, 100, 0⟩ [100, 110, 120, 130]
      = List.replicate (min 4 2) true ++ List.replicate (4 - 2) false)
    ∧ checkRateLimit ⟨true, 604800, "r", "ban", "permanent", 604800, 86400,
        none, [], [], 2, 100, 0⟩ 161
      = (true, { (⟨true, 604800, "r", "ban", "permanent", 604800, 86400,
          none, [], [], 2, 100, 0⟩ : Settings) with
            recent_bans_count := 0, last_ban_timestamp := (161 : Int) }) :=
  ⟨C1_rate_limiter_window.1 _ _ (by decide) (by decide),
   C1_rate_limiter_window.2 _ _ (by decide)⟩

/-- `_check_rate_limit` neither reads nor writes `action_type`. -/
theorem checkRateLimit_action (s : Settings) (a : String) (now : Int) :
    checkRateLimit { s with action_type := a } now
      = ((checkRateLimit s now).1, { (checkRateLimit s now).2 with action_type := a }) := by
  by_cases h1 : now - s.last_ban_timestamp > 60
  · simp [checkRateLimit, h1]
  · by_cases h2 : s.recent_bans_count ≥ s.join_rate_limit <;>
      simp [checkRateLimit, h1, h2]

/-- C10 (implicit): the join handler's dispatch is case-insensitive in
`action_type` — replacing the stored string by its lowercase changes
nothing observable: same external calls, same notification result, and the
same final state except for the stored `action_type` string itself. -/
theorem C10_case_insensitive_dispatch
    (s : Settings) (env : JoinEnv) (now createdAt : Int) (mid : String) :
    (onMemberJoin { s with action_type := s.action_type.toLower } env now createdAt mid).events
        = (onMemberJoin s env now createdAt mid).events
    ∧ (onMemberJoin { s with action_type := s.action_type.toLower } env now createdAt mid).notifyResult
        = (onMemberJoin s env now createdAt mid).notifyResult
    ∧ (onMemberJoin { s with action_type := s.action_type.toLower } env now createdAt mid).settings
        = { (onMemberJoin s env now createdAt mid).settings with
            action_type := s.action_type.toLower } := by
  suffices h : onMemberJoin { s with action_type := s.action_type.toLower } env now createdAt mid
      = { onMemberJoin s env now createdAt mid with
          settings := { (onMemberJoin s env now createdAt mid).settings with
            action_type := s.action_type.toLower } } by
    rw [h]
    exact ⟨rfl, rfl, rfl⟩
  have hidem := string_toLower_idem s.action_type
  by_cases he : s.enabled
  · by_cases hy : now - createdAt < s.min_age_seconds
    · have hlnotify : ("notify" : String).toLower = "notify" := by
        rw [String.toLower, String.map_eq]; decide
      have hldelay : ("delay" : String).toLower = "delay" := by
        rw [String.toLower, String.map_eq]; decide
      have hlban : ("ban" : String).toLower = "ban" := by
        rw [String.toLower, String.map_eq]; decide
      have ne_dn : ¬(("delay" : String) = "notify") := by decide
      have ne_bn : ¬(("ban" : String) = "notify") := by decide
      have ne_bd : ¬(("ban" : String) = "delay") := by decide
      by_cases hn : s.action_type.toLower = "notify"
      · rw [hn]
        simp [onMemberJoin, he, hy, hn, hlnotify, notifyStaff]
      · by_cases hdl : s.action_type.toLower = "delay"
        · rw [hdl]
          simp [onMemberJoin, he, hy, hdl, hldelay, ne_dn, notifyStaff]
        · by_cases hbn : s.action_type.toLower = "ban"
          · rw [hbn]
            rcases hcr : checkRateLimit s now with ⟨b, s1⟩
            have hcr2 : checkRateLimit { s with action_type := "ban" } now
                = (b, { s1 with action_type := "ban" }) := by
              rw [checkRateLimit_action, hcr]
            rw [he] at hcr2
            cases b
            · simp [onMemberJoin, he, hy, hbn, hlban, ne_bn, ne_bd, hcr, hcr2]
            · cases hbr : env.banRes
              · by_cases hbt : s1.ban_type = "temporary" <;>
                  simp [onMemberJoin, he, hy, hbn, hlban, ne_bn, ne_bd, hcr,
                    hcr2, hbr, incrementBanCounter, hbt]
              all_goals
                simp [onMemberJoin, he, hy, hbn, hlban, ne_bn, ne_bd, hcr,
                  hcr2, hbr]
          · simp [onMemberJoin, he, hy, hn, hdl, hbn, hidem]
    · simp [onMemberJoin, he, hy]
  · simp [onMemberJoin, he]

end AgeGate
